import Mathlib

/-!
Shallow embedding of the Mesos cgroups v2 isolator engine
(`Cgroups2IsolatorProcess` in the repository source) together with the
filesystem facade and path helpers it relies on.  Engine operations are
modelled as pure state transformers over an explicit `EngineState`; the
asynchronous controller fan-outs of the source are modelled by an oracle
(`World`) that fixes the outcome of each controller operation, and the
fan-out invocations themselves are recorded in an event log.
-/

namespace CG2

/-- Hierarchical container identity: a value plus an optional parent
(the protobuf `ContainerID` with `has_parent`/`parent`). -/
inductive ContainerID where
  | base (value : String)
  | child (value : String) (par : ContainerID)
deriving DecidableEq

/-- Whether the container id has a parent (`ContainerID::has_parent`). -/
def ContainerID.hasParent : ContainerID → Bool
  | .base _ => false
  | .child _ _ => true

/-- The parent id, if any (`ContainerID::parent`). -/
def ContainerID.parentId : ContainerID → Option ContainerID
  | .base _ => none
  | .child _ p => some p

/-- Components of the container's cgroup path below the agent root,
outermost ancestor first.  Modelled from the spec: `container-path(cid)`
encodes the id-parent chain reversibly (layout in the spec, section 6). -/
def ContainerID.chain : ContainerID → List String
  | .base v => [v]
  | .child v p => p.chain ++ [v]

/-- A cgroup path, as its list of components. -/
abbrev Path := List String

/-- Decide whether `p` is a strict ancestor of `q` in the hierarchy. -/
def pathUnder : Path → Path → Bool
  | [], q => !q.isEmpty
  | _ :: _, [] => false
  | a :: ps, b :: qs => decide (a = b) && pathUnder ps qs

/-- Nonempty prefixes of a path, shortest first. -/
def initsNE : Path → List Path
  | [] => []
  | a :: rest => [a] :: (initsNE rest).map (a :: ·)

/-- A resource limitation event reported by a controller
(`ContainerLimitation`, restricted to what the engine inspects). -/
structure Limitation where
  controllerName : String
  message : String
deriving DecidableEq

/-- Completed outcome held by the one-shot limitation promise. -/
inductive LimResult where
  | failedRes (msg : String)
  | readyRes (lim : Limitation)
deriving DecidableEq

/-- Outcome of a single controller watch future as observed by `_watch`. -/
inductive FOutcome where
  | pending
  | failed (msg : String)
  | ready (lim : Limitation)
deriving DecidableEq

/-- Controller invocations performed by the engine (the fan-out calls of
the source); recorded so that theorems can speak about which controller
hooks were invoked. -/
inductive Event where
  | ctrlPrepare (c : String) (cid : ContainerID)
  | ctrlIsolate (c : String) (cid : ContainerID)
  | ctrlRecover (c : String) (cid : ContainerID)
  | ctrlUpdate (c : String) (cid : ContainerID)
  | ctrlCleanup (c : String) (cid : ContainerID)
  | scheduleCleanup (cid : ContainerID)
deriving DecidableEq

/-- Per-container bookkeeping of the engine (`Cgroups2IsolatorProcess::Info`):
container id, non-leaf cgroup, leaf cgroup, the `isolate` flag, the set of
controller names registered for the container, and the one-shot limitation
promise (`none` while unset). -/
structure Info where
  containerId : ContainerID
  cgroup : Path
  cgroup_leaf : Path
  isolate : Bool
  controllers : List String
  limitation : Option LimResult
deriving DecidableEq

/-- On-disk cgroup filesystem state: the set of existing cgroup directories
and the accumulated `cgroup.subtree_control` writes, as (cgroup, controller)
pairs.  Modelled from the spec: the cgroup2 filesystem facade
(`create`/`exists`/`destroy`/`controllers::enable`/`controllers::enabled`)
is declared in `linux/cgroups2.hpp` but its definition is not under `src/`. -/
structure Fs where
  dirs : List Path
  subtreeWrites : List (Path × String)
deriving DecidableEq

/-- Full engine state: filesystem, the `infos` table and the event log. -/
structure EngineState where
  fs : Fs
  infos : List (ContainerID × Info)
  events : List Event
deriving DecidableEq

/-- Oracle fixing the outcome of every asynchronous or fallible external
operation: a pair (controller, container) in one of the `ctrl*Fails` lists
means that controller operation fails for that container; a path in
`destroyFails` means `cgroups2::destroy` of that cgroup fails; similarly
for `enableFails` and `chownFails`. -/
structure World where
  ctrlPrepareFails : List (String × ContainerID)
  ctrlIsolateFails : List (String × ContainerID)
  ctrlUpdateFails : List (String × ContainerID)
  ctrlRecoverFails : List (String × ContainerID)
  ctrlCleanupFails : List (String × ContainerID)
  enableFails : List (Path × String)
  destroyFails : List Path
  chownFails : List Path
deriving DecidableEq

/-- Engine configuration: the agent cgroup root (`flags.cgroups_root`), the
names of the registered controllers (keys of the `controllers` hashmap) and
the outcome oracle. -/
structure Engine where
  root : Path
  ctrls : List String
  world : World

/-- Container configuration, restricted to the fields the engine inspects.
`shareCgroupsOpt` collapses the chain
`has_container_info && container_info().has_linux_info() &&
linux_info().has_share_cgroups()` of the source: it is `some b` when all
three are present with value `b`, else `none`. -/
structure ContainerConfig where
  shareCgroupsOpt : Option Bool
  isDebug : Bool
  hasRootfs : Bool
  rootfs : String
  hasTaskInfo : Bool
  taskCommandUser : Option String
  hasUser : Bool
  user : String
deriving DecidableEq

/-- Launch directives produced by `__prepare` for containers with a rootfs. -/
structure LaunchOut where
  newCgroupNs : Bool
  newMountNs : Bool
  mountSource : Path
  mountTarget : String
  taskWrapped : Bool
deriving DecidableEq

/-- Association-list lookup for the `infos` table. -/
def lookupInfo : List (ContainerID × Info) → ContainerID → Option Info
  | [], _ => none
  | (k, i) :: rest, c => if k = c then some i else lookupInfo rest c

/-- Insert or replace the entry for a container id. -/
def setAssoc : List (ContainerID × Info) → ContainerID → Info → List (ContainerID × Info)
  | [], c, i => [(c, i)]
  | (k, j) :: rest, c, i =>
    if k = c then (c, i) :: rest else (k, j) :: setAssoc rest c i

/-- Remove the entry for a container id. -/
def eraseAssoc : List (ContainerID × Info) → ContainerID → List (ContainerID × Info)
  | [], _ => []
  | (k, j) :: rest, c =>
    if k = c then rest else (k, j) :: eraseAssoc rest c

/-- Apply a function to the entry for a container id, if present. -/
def modAssoc : List (ContainerID × Info) → ContainerID → (Info → Info) →
    List (ContainerID × Info)
  | [], _, _ => []
  | (k, j) :: rest, c, f =>
    if k = c then (k, f j) :: rest else (k, j) :: modAssoc rest c f

/-- Insert a path into the directory set if absent. -/
def insertDir (dirs : List Path) (p : Path) : List Path :=
  if p ∈ dirs then dirs else dirs ++ [p]

/-- Modelled from the spec: `cgroups2::create(path, recursive=true)` creates
the cgroup directory together with any missing ancestors. -/
def mkdirAll (E : EngineState) (p : Path) : EngineState :=
  { E with fs := { E.fs with dirs := (initsNE p).foldl insertDir E.fs.dirs } }

/-- Modelled from the spec: `cgroups2::create(path)` (non-recursive). -/
def mkdir (E : EngineState) (p : Path) : EngineState :=
  { E with fs := { E.fs with dirs := insertDir E.fs.dirs p } }

/-- Path comparison used by `rmTree`: `p` equals or is an ancestor of `q`. -/
def pathLeB (p q : Path) : Bool :=
  decide (p = q) || pathUnder p q

/-- Modelled from the spec: a successful `cgroups2::destroy(path)` removes
the cgroup and every descendant cgroup. -/
def rmTree (E : EngineState) (p : Path) : EngineState :=
  { E with fs := { E.fs with dirs := E.fs.dirs.filter (fun d => !pathLeB p d) } }

/-- Modelled from the spec: `cgroups2::controllers::enable(path, {c})`
writes `+c` into `path`'s own `cgroup.subtree_control`. -/
def addWrite (E : EngineState) (p : Path) (c : String) : EngineState :=
  { E with fs := { E.fs with subtreeWrites :=
      if (p, c) ∈ E.fs.subtreeWrites then E.fs.subtreeWrites
      else E.fs.subtreeWrites ++ [(p, c)] } }

/-- Append events to the engine's event log. -/
def withEvents (E : EngineState) (l : List Event) : EngineState :=
  { E with events := E.events ++ l }

/-- Insert or replace an `Info` in the table. -/
def putInfo (E : EngineState) (c : ContainerID) (i : Info) : EngineState :=
  { E with infos := setAssoc E.infos c i }

/-- Remove a container's `Info` from the table. -/
def eraseInfo (E : EngineState) (c : ContainerID) : EngineState :=
  { E with infos := eraseAssoc E.infos c }

/-- Modelled from the spec:
`containerizer::paths::cgroups2::container(root, cid, false)` — the
container's non-leaf cgroup `<root>/<container-path(cid)>`. -/
def nonLeafOf (G : Engine) (c : ContainerID) : Path :=
  G.root ++ c.chain

/-- Modelled from the spec:
`containerizer::paths::cgroups2::container(root, cid, true)` — the
container's leaf cgroup `<root>/<container-path(cid)>/leaf`. -/
def leafOf (G : Engine) (c : ContainerID) : Path :=
  nonLeafOf G c ++ ["leaf"]

/-- Modelled from the spec: `containerizer::paths::cgroups2::agent(root)` is
the agent's own cgroup, `<root>/agent`, skipped by the recovery sweep. -/
def agentPath (G : Engine) : Path :=
  G.root ++ ["agent"]

/-- Build a `ContainerID` from nonempty chain components (ancestors first). -/
def idOfChainFrom (acc : ContainerID) : List String → ContainerID
  | [] => acc
  | v :: vs => idOfChainFrom (.child v acc) vs

/-- Modelled from the spec:
`containerizer::paths::cgroups2::containerId(root, cgroup)` decodes a cgroup
path under the root back into a `ContainerID`; the reserved `leaf`
directories and paths outside the root decode to nothing. -/
def containerIdOf (root : Path) (cg : Path) : Option ContainerID :=
  if pathUnder root cg then
    let rest := cg.drop root.length
    if decide ("leaf" ∈ rest) then none
    else
      match rest with
      | [] => none
      | v :: vs => some (idOfChainFrom (.base v) vs)
  else none

/-- Controllers never written into any `subtree_control` file
(`skip_enable` in `Cgroups2IsolatorProcess::prepare`). -/
def skipEnable : List String := ["core", "perf_event", "devices"]

/-- Resolution of `share_cgroups` in `prepare` and `recover`: a container
shares its parent's cgroups iff it is nested and
`container_info.linux_info.share_cgroups` is either absent or true. -/
def shareOf (cid : ContainerID) (shareField : Option Bool) : Bool :=
  cid.hasParent && shareField.getD true

/-- The hop cgroups visited by the `subtree_control`-enabling walk of
`prepare`: starting from `cur`, join one token at a time; the result lists
`cur ++ [t1]`, `cur ++ [t1, t2]`, …, in order. -/
def hopsFrom : Path → List String → List Path
  | _, [] => []
  | cur, t :: ts => (cur ++ [t]) :: hopsFrom (cur ++ [t]) ts

/-- The walk of `Cgroups2IsolatorProcess::prepare` that enables controller
`c` in the `subtree_control` file of every hop from the agent root down to
the container's non-leaf cgroup (the loop over `cgroup_tokens`). -/
def enableAlong (G : Engine) (c : String) :
    EngineState → Path → List String → EngineState × Except String Unit
  | E, _, [] => (E, .ok ())
  | E, cur, t :: ts =>
    let cur2 := cur ++ [t]
    if (cur2, c) ∈ G.world.enableFails then
      (E, .error ("Failed to enable controller " ++ c))
    else enableAlong G c (addWrite E cur2 c) cur2 ts

/-- The `cgroupInfo` helper of the engine: walk up the container-id
hierarchy until an id with an `Info` is found. -/
def cgroupInfo (infos : List (ContainerID × Info)) : ContainerID → Option Info
  | .base v => lookupInfo infos (.base v)
  | .child v p =>
    match lookupInfo infos (.child v p) with
    | some i => some i
    | none => cgroupInfo infos p

/-- Insert a controller name into a name set if absent (hashset insert). -/
def insName (l : List String) (c : String) : List String :=
  if c ∈ l then l else l ++ [c]

/-- Register a controller name in a container's `Info.controllers`
(`infos[containerId]->controllers.insert(...)`). -/
def addCtrlInfo (E : EngineState) (cid : ContainerID) (c : String) :
    EngineState :=
  { E with infos := modAssoc E.infos cid (fun i =>
      { i with controllers := insName i.controllers c }) }

/-- Set a container's limitation promise value. -/
def setLim (E : EngineState) (cid : ContainerID) (r : LimResult) : EngineState :=
  { E with infos := modAssoc E.infos cid (fun i =>
      { i with limitation := some r }) }

/-- `Cgroups2IsolatorProcess::update` (with `_update` folded in): unknown
containers fail; containers whose `Info` has `isolate == false` fail with
"Update is not supported for nested containers"; otherwise `update` is
fanned out to every controller registered in `Info.controllers` and the
collected failures, if any, become a combined failure.  The resource
request and limit arguments are passed through to the controllers unchanged
and do not influence the engine logic, so they are not modelled. -/
def update (G : Engine) (E : EngineState) (cid : ContainerID) :
    EngineState × Except String Unit :=
  match lookupInfo E.infos cid with
  | none => (E, .error "Unknown container")
  | some info =>
    if !info.isolate then
      (E, .error "Update is not supported for nested containers")
    else
      let called := G.ctrls.filter (fun c => decide (c ∈ info.controllers))
      let E1 := withEvents E (called.map (fun c => Event.ctrlUpdate c cid))
      let errs := called.filter (fun c => decide ((c, cid) ∈ G.world.ctrlUpdateFails))
      if errs.isEmpty then (E1, .ok ())
      else (E1, .error "Failed to update controllers")

/-- `Cgroups2IsolatorProcess::__prepare`: emit launch directives.  Without a
rootfs nothing is emitted; otherwise the owning `Info` is looked up through
`cgroupInfo` and the launch info requests a new cgroup namespace, a new
mount namespace and a bind mount of the leaf cgroup at
`<rootfs>/sys/fs/cgroup`; for command tasks it is wrapped in a nested
envelope (`taskWrapped`). -/
def prepare2 (E : EngineState) (cid : ContainerID) (cfg : ContainerConfig) :
    EngineState × Except String (Option LaunchOut) :=
  if !cfg.hasRootfs then (E, .ok none)
  else
    match cgroupInfo E.infos cid with
    | none => (E, .error "Failed to get cgroup for container")
    | some info =>
      (E, .ok (some {
        newCgroupNs := true
        newMountNs := true
        mountSource := info.cgroup_leaf
        mountTarget := cfg.rootfs ++ "/sys/fs/cgroup"
        taskWrapped := cfg.hasTaskInfo }))

/-- The controller loop of `Cgroups2IsolatorProcess::prepare`: for each
registered controller, unless it is one of `skipEnable`, enable it in the
`subtree_control` of every hop from the root down to the non-leaf cgroup
(failing fast on an enable error); then register the controller in
`Info.controllers` and invoke the controller's `prepare`. -/
def prepLoop (G : Engine) (cid : ContainerID) (tokens : List String) :
    EngineState → List String → EngineState × Except String Unit
  | E, [] => (E, .ok ())
  | E, c :: cs =>
    let step :=
      if c ∈ skipEnable then (E, .ok ()) else enableAlong G c E G.root tokens
    match step.2 with
    | .error e => (step.1, .error e)
    | .ok () =>
      prepLoop G cid tokens
        (withEvents (addCtrlInfo step.1 cid c) [Event.ctrlPrepare c cid]) cs

/-- The `chown` step of `prepare`: pick the user exactly as the source does
(command task with rootfs takes the task-command user if set, otherwise no
chown; otherwise the container user) and chown the leaf cgroup. -/
def chownStep (G : Engine) (cfg : ContainerConfig) (leaf : Path) :
    Except String Unit :=
  if cfg.hasUser then
    let user : Option String :=
      if cfg.hasTaskInfo && cfg.hasRootfs then cfg.taskCommandUser
      else some cfg.user
    match user with
    | some _ => if leaf ∈ G.world.chownFails then .error "Failed to chown the cgroup" else .ok ()
    | none => .ok ()
  else .ok ()

/-- `Cgroups2IsolatorProcess::prepare` with its continuations `_prepare` and
`__prepare` folded in sequentially: duplicate preparation fails; a missing
agent root trips a `CHECK` (modelled as a distinguished error); the non-leaf
and leaf cgroups are created (failing if they already exist); `Info` is
inserted with `isolate = !shareCgroups`; shared containers skip directly to
`__prepare`; otherwise controllers are enabled and prepared, the leaf is
chowned, controller-prepare failures are collected, `update` is run with
the initial resources, and `__prepare` emits the launch info. -/
def prepare (G : Engine) (E : EngineState) (cid : ContainerID)
    (cfg : ContainerConfig) : EngineState × Except String (Option LaunchOut) :=
  if (lookupInfo E.infos cid).isSome then
    (E, .error "Container has already been prepared")
  else if G.root ∉ E.fs.dirs then
    (E, .error "CHECK failed: cgroups root does not exist")
  else
    let nonLeaf := nonLeafOf G cid
    if nonLeaf ∈ E.fs.dirs then (E, .error "Cgroup already exists")
    else
      let E1 := mkdirAll E nonLeaf
      let leaf := leafOf G cid
      if leaf ∈ E1.fs.dirs then (E1, .error "Cgroup already exists")
      else
        let E2 := mkdirAll E1 leaf
        let share := shareOf cid cfg.shareCgroupsOpt
        let E3 := putInfo E2 cid
          { containerId := cid, cgroup := nonLeaf, cgroup_leaf := leaf
            isolate := !share, controllers := [], limitation := none }
        if share then prepare2 E3 cid cfg
        else if cfg.isDebug then (E3, .error "CHECK failed: DEBUG container")
        else
          let pl := prepLoop G cid cid.chain E3 G.ctrls
          match pl.2 with
          | .error e => (pl.1, .error e)
          | .ok () =>
            match chownStep G cfg leaf with
            | .error e => (pl.1, .error e)
            | .ok () =>
              let errs := G.ctrls.filter
                (fun c => decide ((c, cid) ∈ G.world.ctrlPrepareFails))
              if !errs.isEmpty then
                (pl.1, .error "Failed to prepare controllers")
              else
                let up := update G pl.1 cid
                match up.2 with
                | .error e => (up.1, .error e)
                | .ok () => prepare2 up.1 cid cfg

/-- `Cgroups2IsolatorProcess::isolate` with `_isolate` folded in, exactly as
the source has it: unknown containers fail; if `Info.isolate` is TRUE the
call returns success immediately without invoking any controller; otherwise
`controller.isolate` is fanned out to every registered controller (note:
all controllers of the engine, not only those in `Info.controllers`),
failures are collected, and on success the owning info is re-looked-up via
`cgroupInfo`. -/
def isolate (G : Engine) (E : EngineState) (cid : ContainerID) (_pid : Nat) :
    EngineState × Except String Unit :=
  match lookupInfo E.infos cid with
  | none => (E, .error "Unknown container")
  | some info =>
    if info.isolate then (E, .ok ())
    else
      let E1 := withEvents E (G.ctrls.map (fun c => Event.ctrlIsolate c cid))
      let errs := G.ctrls.filter
        (fun c => decide ((c, cid) ∈ G.world.ctrlIsolateFails))
      if !errs.isEmpty then (E1, .error "Failed to prepare controllers")
      else
        match cgroupInfo E1.infos cid with
        | none => (E1, .error "Failed to find cgroup for container")
        | some _ =>
          -- The pid is placed into the leaf by the launcher, not here.
          (E1, .ok ())

/-- The limitation value currently held by a container's one-shot promise. -/
def limOf (E : EngineState) (cid : ContainerID) : Option LimResult :=
  match lookupInfo E.infos cid with
  | none => none
  | some info => info.limitation

/-- `Cgroups2IsolatorProcess::_watch`: a controller watch future completed
for `cid`.  Unknown containers and still-pending futures are ignored;
otherwise the outcome is set on the container's limitation promise.
Modelled from the spec: the promise is one-shot (a `set` on an
already-satisfied promise is a no-op), the promise type being part of the
libprocess runtime, which is not under `src/`. -/
def watchStep (E : EngineState) (cid : ContainerID) (f : FOutcome) :
    EngineState :=
  match lookupInfo E.infos cid with
  | none => E
  | some info =>
    match f with
    | .pending => E
    | .failed m =>
      if info.limitation.isSome then E else setLim E cid (.failedRes m)
    | .ready l =>
      if info.limitation.isSome then E else setLim E cid (.readyRes l)

/-- `Cgroups2IsolatorProcess::cleanup` with `_cleanup` and `__cleanup`
folded in: unknown containers are silently ignored; `controller.cleanup` is
fanned out to the registered controllers and failures surface; if the
non-leaf cgroup is already absent the `Info` is erased; otherwise the
cgroup is destroyed — on success the `Info` is erased, on failure it is
kept and the failure surfaces. -/
def cleanup (G : Engine) (E : EngineState) (cid : ContainerID) :
    EngineState × Except String Unit :=
  match lookupInfo E.infos cid with
  | none => (E, .ok ())
  | some info =>
    let called := G.ctrls.filter (fun c => decide (c ∈ info.controllers))
    let E1 := withEvents E (called.map (fun c => Event.ctrlCleanup c cid))
    let errs := called.filter
      (fun c => decide ((c, cid) ∈ G.world.ctrlCleanupFails))
    if !errs.isEmpty then (E1, .error "Failed to cleanup subsystems")
    else if info.cgroup ∉ E1.fs.dirs then
      (eraseInfo E1 cid, .ok ())
    else if info.cgroup ∈ G.world.destroyFails then
      (E1, .error "Failed to destroy cgroup")
    else
      (eraseInfo (rmTree E1 info.cgroup) cid, .ok ())

/-- The tail of `Cgroups2IsolatorProcess::___recover` (from the read of
the enabled-controllers set onwards) with `____recover` folded in: the set
of enabled controllers is read from the non-leaf's `subtree_control`;
`controller.recover` is invoked only for registered controllers that are
enabled (the others are merely logged); then, after a `CHECK` that no
`Info` exists yet, recover failures surface and otherwise an `Info` with
`controllers = recovered controllers` is inserted. -/
def recover3Tail (G : Engine) (E2 : EngineState) (cid : ContainerID)
    (iso : Bool) (nonLeaf leaf : Path) : EngineState × Except String Unit :=
  let recovered := G.ctrls.filter
    (fun c => decide ((nonLeaf, c) ∈ E2.fs.subtreeWrites))
  let E3 := withEvents E2 (recovered.map (fun c => Event.ctrlRecover c cid))
  if (lookupInfo E3.infos cid).isSome then
    (E3, .error "CHECK failed: info already present")
  else
    let errs := recovered.filter
      (fun c => decide ((c, cid) ∈ G.world.ctrlRecoverFails))
    if !errs.isEmpty then (E3, .error "Failed to recover controllers")
    else
      (putInfo E3 cid
        { containerId := cid, cgroup := nonLeaf, cgroup_leaf := leaf
          isolate := iso, controllers := recovered, limitation := none },
       .ok ())

/-- `Cgroups2IsolatorProcess::___recover`: the per-container recovery
step.  A missing non-leaf or leaf cgroup is recreated (with a logged
warning) rather than failing, and the rest of the step is
`recover3Tail`. -/
def recover3 (G : Engine) (E : EngineState) (cid : ContainerID)
    (iso : Bool) : EngineState × Except String Unit :=
  let nonLeaf := nonLeafOf G cid
  let leaf := leafOf G cid
  let E1 := if nonLeaf ∈ E.fs.dirs then E else mkdir E nonLeaf
  let E2 := if leaf ∈ E1.fs.dirs then E1 else mkdir E1 leaf
  recover3Tail G E2 cid iso nonLeaf leaf

/-- Insert a container id into a list if absent (hashset insertion). -/
def insertId (l : List ContainerID) (c : ContainerID) : List ContainerID :=
  if c ∈ l then l else l ++ [c]

/-- One step of the filesystem sweep of `_recover`: skip the agent's own
cgroup, paths that do not decode to a container id, and ids that already
have an `Info`; classify the rest as known (in the agent-supplied orphans)
or unknown orphans. -/
def classifyStep (G : Engine) (E : EngineState) (orphans : List ContainerID)
    (acc : List ContainerID × List ContainerID) (d : Path) :
    List ContainerID × List ContainerID :=
  if d = agentPath G then acc
  else
    match containerIdOf G.root d with
    | none => acc
    | some c =>
      if (lookupInfo E.infos c).isSome then acc
      else if c ∈ orphans then (insertId acc.1 c, acc.2)
      else (acc.1, insertId acc.2 c)

/-- The filesystem sweep of `_recover`: enumerate the cgroups under the
agent root (`cgroups2::get`) and classify them into known and unknown
orphans. -/
def sweepClassify (G : Engine) (E : EngineState)
    (orphans : List ContainerID) : List ContainerID × List ContainerID :=
  (E.fs.dirs.filter (fun d => pathUnder G.root d)).foldl
    (classifyStep G E orphans) ([], [])

/-- Sequential fan-out of `___recover` over a list of orphan container ids,
collecting the failure messages (`await` + error collection).  Modelled
from the spec for the default of the `isolate` parameter: the isolator
header is not under `src/`, and since both orphan kinds are recovered
identically so that they can be destroyed through the normal path, they
are recovered as cgroup-owning (`isolate = true`). -/
def recoverOrphans (G : Engine) :
    EngineState → List ContainerID → EngineState × List String
  | E, [] => (E, [])
  | E, c :: cs =>
    let r := recover3 G E c true
    let rest := recoverOrphans G r.1 cs
    (rest.1, match r.2 with | .ok () => rest.2 | .error e => e :: rest.2)

/-- The cleanup scheduling of `__recover`: for each unknown orphan, record
the scheduling and invoke `cleanup`. -/
def scheduleCleanups (G : Engine) :
    EngineState → List ContainerID → EngineState
  | E, [] => E
  | E, c :: cs =>
    let E1 := withEvents E [Event.scheduleCleanup c]
    let E2 := (cleanup G E1 c).1
    scheduleCleanups G E2 cs

/-- `Cgroups2IsolatorProcess::_recover` with `__recover` folded in: sweep
the hierarchy, recover known and unknown orphans through `___recover`,
fail if any recovery failed, and otherwise schedule a `cleanup` for every
unknown orphan (known orphans are left to the containerizer's normal
cleanup path). -/
def recoverSweep (G : Engine) (E : EngineState)
    (orphans : List ContainerID) : EngineState × Except String Unit :=
  let ku := sweepClassify G E orphans
  let ro := recoverOrphans G E (ku.1 ++ ku.2)
  if !ro.2.isEmpty then (ro.1, .error "Failed to recover orphan containers")
  else (scheduleCleanups G ro.1 ku.2, .ok ())

/-- A checkpointed `ContainerState`, restricted to the fields the engine
inspects: the container id and the resolved
`container_info.linux_info.share_cgroups` field (with the same
presence-collapsing as in `ContainerConfig`). -/
structure CState where
  cid : ContainerID
  shareField : Option Bool
deriving DecidableEq

/-- Sequential fan-out of `___recover` over the checkpointed container
states, with `isolate = !shareCgroups`, collecting failure messages. -/
def recoverStates (G : Engine) :
    EngineState → List CState → EngineState × List String
  | E, [] => (E, [])
  | E, s :: ss =>
    let r := recover3 G E s.cid (!shareOf s.cid s.shareField)
    let rest := recoverStates G r.1 ss
    (rest.1, match r.2 with | .ok () => rest.2 | .error e => e :: rest.2)

/-- `Cgroups2IsolatorProcess::recover`: first recover every checkpointed
container, fail if any of those recoveries failed, then run the filesystem
sweep `_recover` over the agent-supplied orphans.  The device-manager
recovery is an external collaborator and is not modelled. -/
def recover (G : Engine) (E : EngineState) (states : List CState)
    (orphans : List ContainerID) : EngineState × Except String Unit :=
  let rs := recoverStates G E states
  if !rs.2.isEmpty then (rs.1, .error "Failed to recover active containers")
  else recoverSweep G rs.1 orphans

/-- The container ids whose cleanup has been scheduled, in the order the
`scheduleCleanup` events appear in the log. -/
def schedList (l : List Event) : List ContainerID :=
  l.filterMap (fun e => match e with
    | .scheduleCleanup c => some c
    | _ => none)

/-! Supporting lemmas about the association list, the filesystem model and
the path helpers. -/

theorem lookupInfo_setAssoc_self (l : List (ContainerID × Info))
    (c : ContainerID) (i : Info) : lookupInfo (setAssoc l c i) c = some i := by
  induction l with
  | nil => simp [setAssoc, lookupInfo]
  | cons hd tl ih =>
    obtain ⟨a, b⟩ := hd
    by_cases h : a = c
    · subst h
      simp [setAssoc, lookupInfo]
    · simp [setAssoc, lookupInfo, h, ih]

theorem lookupInfo_setAssoc_ne (l : List (ContainerID × Info))
    (c k : ContainerID) (i : Info) (h : k ≠ c) :
    lookupInfo (setAssoc l c i) k = lookupInfo l k := by
  induction l with
  | nil => simp [setAssoc, lookupInfo, Ne.symm h]
  | cons hd tl ih =>
    obtain ⟨a, b⟩ := hd
    by_cases hk : a = c
    · subst hk
      simp [setAssoc, lookupInfo, Ne.symm h]
    · simp [setAssoc, lookupInfo, hk, ih]

theorem lookupInfo_modAssoc_self (l : List (ContainerID × Info))
    (c : ContainerID) (f : Info → Info) :
    lookupInfo (modAssoc l c f) c = (lookupInfo l c).map f := by
  induction l with
  | nil => simp [modAssoc, lookupInfo]
  | cons hd tl ih =>
    obtain ⟨a, b⟩ := hd
    by_cases h : a = c
    · subst h
      simp [modAssoc, lookupInfo]
    · simp [modAssoc, lookupInfo, h, ih]

theorem lookupInfo_modAssoc_ne (l : List (ContainerID × Info))
    (c k : ContainerID) (f : Info → Info) (h : k ≠ c) :
    lookupInfo (modAssoc l c f) k = lookupInfo l k := by
  induction l with
  | nil => simp [modAssoc, lookupInfo]
  | cons hd tl ih =>
    obtain ⟨a, b⟩ := hd
    by_cases hk : a = c
    · subst hk
      simp [modAssoc, lookupInfo, Ne.symm h]
    · simp [modAssoc, lookupInfo, hk, ih]

theorem lookupInfo_eq_none_of_not_mem (l : List (ContainerID × Info))
    (c : ContainerID) (h : c ∉ l.map Prod.fst) : lookupInfo l c = none := by
  induction l with
  | nil => simp [lookupInfo]
  | cons hd tl ih =>
    obtain ⟨a, b⟩ := hd
    simp only [List.map_cons, List.mem_cons] at h
    push_neg at h
    simp [lookupInfo, Ne.symm h.1, ih h.2]

theorem lookupInfo_eraseAssoc_self (l : List (ContainerID × Info))
    (c : ContainerID) (h : (l.map Prod.fst).Nodup) :
    lookupInfo (eraseAssoc l c) c = none := by
  induction l with
  | nil => simp [eraseAssoc, lookupInfo]
  | cons hd tl ih =>
    obtain ⟨a, b⟩ := hd
    simp only [List.map_cons, List.nodup_cons] at h
    by_cases hk : a = c
    · subst hk
      simp only [eraseAssoc, if_pos rfl]
      exact lookupInfo_eq_none_of_not_mem tl a h.1
    · simp [eraseAssoc, hk, lookupInfo, ih h.2]

theorem lookupInfo_eraseAssoc_ne (l : List (ContainerID × Info))
    (c k : ContainerID) (h : k ≠ c) :
    lookupInfo (eraseAssoc l c) k = lookupInfo l k := by
  induction l with
  | nil => simp [eraseAssoc, lookupInfo]
  | cons hd tl ih =>
    obtain ⟨a, b⟩ := hd
    by_cases hk : a = c
    · subst hk
      simp [eraseAssoc, lookupInfo, Ne.symm h]
    · simp [eraseAssoc, hk, lookupInfo, ih]

theorem mem_insertDir (dirs : List Path) (p d : Path) :
    d ∈ insertDir dirs p ↔ d ∈ dirs ∨ d = p := by
  by_cases h : p ∈ dirs
  · simp only [insertDir, if_pos h]
    constructor
    · exact Or.inl
    · rintro (hd | rfl)
      · exact hd
      · exact h
  · simp [insertDir, if_neg h]

theorem mem_foldl_insertDir (ps : List Path) (l0 : List Path) (d : Path) :
    d ∈ ps.foldl insertDir l0 ↔ d ∈ l0 ∨ d ∈ ps := by
  induction ps generalizing l0 with
  | nil => simp
  | cons hd tl ih =>
    simp only [List.foldl_cons, ih, mem_insertDir, List.mem_cons]
    tauto

theorem mem_mkdirAll (E : EngineState) (p d : Path) :
    d ∈ (mkdirAll E p).fs.dirs ↔ d ∈ E.fs.dirs ∨ d ∈ initsNE p := by
  simp [mkdirAll, mem_foldl_insertDir]

theorem length_le_of_mem_initsNE {q p : Path} (h : q ∈ initsNE p) :
    q.length ≤ p.length := by
  induction p generalizing q with
  | nil => simp [initsNE] at h
  | cons a rest ih =>
    simp only [initsNE, List.mem_cons, List.mem_map] at h
    rcases h with h | ⟨w, hw, rfl⟩
    · simp [h]
    · simpa using Nat.succ_le_succ (ih hw)

theorem self_mem_initsNE (p : Path) (h : p ≠ []) : p ∈ initsNE p := by
  induction p with
  | nil => exact absurd rfl h
  | cons a rest ih =>
    by_cases hr : rest = []
    · simp [initsNE, hr]
    · simp only [initsNE, List.mem_cons, List.mem_map]
      exact Or.inr ⟨rest, ih hr, rfl⟩

theorem pathLeB_self (p : Path) : pathLeB p p = true := by
  simp [pathLeB]

theorem length_le_of_mem_hopsFrom {q : Path} {cur : Path} {ts : List String}
    (h : q ∈ hopsFrom cur ts) : q.length ≤ cur.length + ts.length := by
  induction ts generalizing cur with
  | nil => simp [hopsFrom] at h
  | cons t rest ih =>
    simp only [hopsFrom, List.mem_cons] at h
    rcases h with rfl | h
    · simp [Nat.succ_le_succ, Nat.le_add_right]
    · have := ih h
      simpa [Nat.add_comm, Nat.add_assoc, Nat.add_left_comm] using this

@[simp] theorem withEvents_infos (E : EngineState) (l : List Event) :
    (withEvents E l).infos = E.infos := rfl

@[simp] theorem withEvents_fs (E : EngineState) (l : List Event) :
    (withEvents E l).fs = E.fs := rfl

@[simp] theorem withEvents_events (E : EngineState) (l : List Event) :
    (withEvents E l).events = E.events ++ l := rfl

@[simp] theorem eraseInfo_fs (E : EngineState) (c : ContainerID) :
    (eraseInfo E c).fs = E.fs := rfl

@[simp] theorem eraseInfo_events (E : EngineState) (c : ContainerID) :
    (eraseInfo E c).events = E.events := rfl

@[simp] theorem eraseInfo_infos (E : EngineState) (c : ContainerID) :
    (eraseInfo E c).infos = eraseAssoc E.infos c := rfl

@[simp] theorem rmTree_infos (E : EngineState) (p : Path) :
    (rmTree E p).infos = E.infos := rfl

@[simp] theorem rmTree_events (E : EngineState) (p : Path) :
    (rmTree E p).events = E.events := rfl

@[simp] theorem rmTree_writes (E : EngineState) (p : Path) :
    (rmTree E p).fs.subtreeWrites = E.fs.subtreeWrites := rfl

@[simp] theorem rmTree_dirs (E : EngineState) (p : Path) :
    (rmTree E p).fs.dirs = E.fs.dirs.filter (fun d => !pathLeB p d) := rfl

@[simp] theorem putInfo_fs (E : EngineState) (c : ContainerID) (i : Info) :
    (putInfo E c i).fs = E.fs := rfl

@[simp] theorem putInfo_events (E : EngineState) (c : ContainerID) (i : Info) :
    (putInfo E c i).events = E.events := rfl

@[simp] theorem putInfo_infos (E : EngineState) (c : ContainerID) (i : Info) :
    (putInfo E c i).infos = setAssoc E.infos c i := rfl

@[simp] theorem mkdir_infos (E : EngineState) (p : Path) :
    (mkdir E p).infos = E.infos := rfl

@[simp] theorem mkdir_events (E : EngineState) (p : Path) :
    (mkdir E p).events = E.events := rfl

@[simp] theorem mkdir_writes (E : EngineState) (p : Path) :
    (mkdir E p).fs.subtreeWrites = E.fs.subtreeWrites := rfl

@[simp] theorem mkdir_dirs (E : EngineState) (p : Path) :
    (mkdir E p).fs.dirs = insertDir E.fs.dirs p := rfl

@[simp] theorem mkdirAll_infos (E : EngineState) (p : Path) :
    (mkdirAll E p).infos = E.infos := rfl

@[simp] theorem mkdirAll_events (E : EngineState) (p : Path) :
    (mkdirAll E p).events = E.events := rfl

@[simp] theorem mkdirAll_writes (E : EngineState) (p : Path) :
    (mkdirAll E p).fs.subtreeWrites = E.fs.subtreeWrites := rfl

@[simp] theorem addWrite_infos (E : EngineState) (p : Path) (c : String) :
    (addWrite E p c).infos = E.infos := rfl

@[simp] theorem addWrite_events (E : EngineState) (p : Path) (c : String) :
    (addWrite E p c).events = E.events := rfl

@[simp] theorem addWrite_dirs (E : EngineState) (p : Path) (c : String) :
    (addWrite E p c).fs.dirs = E.fs.dirs := rfl

@[simp] theorem setLim_fs (E : EngineState) (c : ContainerID) (r : LimResult) :
    (setLim E c r).fs = E.fs := rfl

@[simp] theorem setLim_events (E : EngineState) (c : ContainerID) (r : LimResult) :
    (setLim E c r).events = E.events := rfl

@[simp] theorem addCtrlInfo_fs (E : EngineState) (c : ContainerID) (s : String) :
    (addCtrlInfo E c s).fs = E.fs := rfl

@[simp] theorem addCtrlInfo_events (E : EngineState) (c : ContainerID) (s : String) :
    (addCtrlInfo E c s).events = E.events := rfl

theorem mem_addWrite (E : EngineState) (p : Path) (c : String)
    (x : Path × String) :
    x ∈ (addWrite E p c).fs.subtreeWrites ↔
      x ∈ E.fs.subtreeWrites ∨ x = (p, c) := by
  by_cases h : (p, c) ∈ E.fs.subtreeWrites
  · simp only [addWrite, if_pos h]
    constructor
    · exact Or.inl
    · rintro (hd | rfl)
      · exact hd
      · exact h
  · simp [addWrite, if_neg h]

theorem cgroupInfo_of_lookup (infos : List (ContainerID × Info))
    (c : ContainerID) (i : Info) (h : lookupInfo infos c = some i) :
    cgroupInfo infos c = some i := by
  cases c with
  | base v => simpa [cgroupInfo] using h
  | child v p => simp [cgroupInfo, h]

/-! Concrete fixtures used by the closed evaluations and witnesses: an
engine with controllers `core`, `cpu` and `mem`, a benign outcome oracle,
an agent root `mesos` whose `subtree_control` has been set up by the agent
bootstrap, a top-level container `p1` and a nested container `c1` under
`p1`. -/

def exW : World := ⟨[], [], [], [], [], [], [], []⟩

def exG : Engine := ⟨["mesos"], ["core", "cpu", "mem"], exW⟩

def exP1 : ContainerID := .base "p1"

def exC1P1 : ContainerID := .child "c1" exP1

def exCfgTop : ContainerConfig := ⟨none, false, false, "", false, none, false, ""⟩

def exCfgShared : ContainerConfig :=
  ⟨some true, false, false, "", false, none, false, ""⟩

def exE0 : EngineState :=
  ⟨⟨[["mesos"]], [(["mesos"], "cpu"), (["mesos"], "mem")]⟩, [], []⟩

def exE1 : EngineState := (prepare exG exE0 exP1 exCfgTop).1

def exE2 : EngineState := (prepare exG exE1 exC1P1 exCfgShared).1

/-- The `Info` the engine holds for the shared nested container `c1.p1`
after the two example prepares. -/
def exInfoC1 : Info :=
  ⟨exC1P1, ["mesos", "p1", "c1"], ["mesos", "p1", "c1", "leaf"], false, [], none⟩

/-- C1: the source's `isolate` inverts the intended check on `Info.isolate`.
Evaluated at a state holding a cgroup-owning container `p1`
(`Info.isolate = true`) and a shared nested container `c1.p1`
(`Info.isolate = false`): for `p1` the call returns success immediately and
invokes no controller's isolate (the state is entirely unchanged), while
for `c1.p1` it fans `controller.isolate` out to every controller — the
exact opposite of the claimed behaviour. -/
theorem isolate_inverted_flag_eval :
    CG2.isolate exG exE2 exP1 1234 = (exE2, .ok ()) ∧
    (CG2.isolate exG exE2 exC1P1 1234).1.events =
      exE2.events ++ [.ctrlIsolate "core" exC1P1, .ctrlIsolate "cpu" exC1P1,
        .ctrlIsolate "mem" exC1P1] ∧
    (CG2.isolate exG exE2 exC1P1 1234).2 = .ok () :=
  ⟨rfl, rfl, rfl⟩

/-- C9: `update` on an id with no `Info` fails, and `update` on a container
whose `Info` has `isolate == false` (a shared-cgroup nested container)
fails with the update-not-supported error; in both cases the state — in
particular the controller invocation log — is completely unchanged. -/
theorem update_shared_rejected (G : Engine) (E : EngineState)
    (cid : ContainerID) :
    (lookupInfo E.infos cid = none →
      update G E cid = (E, .error "Unknown container")) ∧
    (∀ info, lookupInfo E.infos cid = some info → info.isolate = false →
      update G E cid =
        (E, .error "Update is not supported for nested containers")) := by
  constructor
  · intro h
    simp [update, h]
  · intro info h hiso
    simp [update, h, hiso]

/-- Witness for C9 at the example state: an unknown id and the shared
nested container `c1.p1` are both rejected with the state unchanged. -/
theorem update_shared_rejected_witness :
    update exG exE2 (ContainerID.base "zz") =
      (exE2, .error "Unknown container") ∧
    update exG exE2 exC1P1 =
      (exE2, .error "Update is not supported for nested containers") :=
  ⟨(update_shared_rejected exG exE2 (ContainerID.base "zz")).1 (by rfl),
   (update_shared_rejected exG exE2 exC1P1).2 exInfoC1 (by rfl) (by rfl)⟩

/-- C10: when a controller watch future completes as a failure while the
container's limitation promise is still unset, `_watch` sets that failure
on the promise, so the future returned by `watch` fails even though no
`Limitation` was reported. -/
theorem watch_failure_propagates (E : EngineState) (cid : ContainerID)
    (info : Info) (m : String) (h : lookupInfo E.infos cid = some info)
    (h2 : info.limitation = none) :
    limOf (watchStep E cid (.failed m)) cid = some (.failedRes m) := by
  simp [watchStep, h, h2, limOf, setLim, lookupInfo_modAssoc_self]

/-- Witness for C10 at the example state: a failed `memory` watch future
fails the promise of `c1.p1`. -/
theorem watch_failure_propagates_witness :
    limOf (watchStep exE2 exC1P1 (.failed "memory: inotify error")) exC1P1 =
      some (.failedRes "memory: inotify error") :=
  watch_failure_propagates exE2 exC1P1 exInfoC1 "memory: inotify error"
    (by rfl) (by rfl)

/-- C6: the limitation promise is one-shot.  Once some completion has set
the promise to a value, any later completion of another controller's watch
future — single or in any sequence — leaves the delivered value unchanged,
so at most one `Limitation` is ever delivered for a container. -/
theorem limitation_once (cid : ContainerID) (v : LimResult) :
    (∀ (E : EngineState) (f : FOutcome), limOf E cid = some v →
      limOf (watchStep E cid f) cid = some v) ∧
    (∀ (fs : List FOutcome) (E : EngineState), limOf E cid = some v →
      limOf (fs.foldl (fun s f => watchStep s cid f) E) cid = some v) := by
  have step : ∀ (E : EngineState) (f : FOutcome), limOf E cid = some v →
      limOf (watchStep E cid f) cid = some v := by
    intro E f h
    rcases hl : lookupInfo E.infos cid with _ | info
    · simp [limOf, hl] at h
    · have hlim : info.limitation = some v := by simpa [limOf, hl] using h
      cases f with
      | pending => simpa [watchStep, hl] using h
      | failed m => simpa [watchStep, hl, hlim] using h
      | ready l => simpa [watchStep, hl, hlim] using h
  refine ⟨step, ?fold⟩
  intro fs
  induction fs with
  | nil => intro E h; simpa using h
  | cons f rest ih =>
    intro E h
    exact ih (watchStep E cid f) (step E f h)

/-- Witness for C6 at the example state: after a ready `memory` limitation
has been delivered for `c1.p1`, a later ready `cpu` limitation and a later
failure are both ignored. -/
theorem limitation_once_witness :
    limOf (([FOutcome.ready ⟨"cpu", "cpu limit"⟩,
             FOutcome.failed "io error"].foldl
        (fun s f => watchStep s exC1P1 f)
        (watchStep exE2 exC1P1 (.ready ⟨"mem", "oom"⟩))) ) exC1P1 =
      some (.readyRes ⟨"mem", "oom"⟩) :=
  (limitation_once exC1P1 (.readyRes ⟨"mem", "oom"⟩)).2
    [FOutcome.ready ⟨"cpu", "cpu limit"⟩, FOutcome.failed "io error"]
    (watchStep exE2 exC1P1 (.ready ⟨"mem", "oom"⟩)) (by rfl)

/-- C5: `cleanup` on an id with no `Info` returns success with no effect at
all.  For a known container, the `Info` entry is erased exactly in the
branches where the non-leaf cgroup has been destroyed or confirmed absent
(on success the final state has neither the `Info` nor the cgroup), and
whenever cleanup fails — a controller cleanup failure or a destroy failure
— the `Info` entry is retained unchanged so the agent can retry.  The
`Nodup` hypothesis is the key-uniqueness invariant of the `infos` hashmap. -/
theorem cleanup_info_erasure (G : Engine) (E : EngineState)
    (cid : ContainerID) (hnd : (E.infos.map Prod.fst).Nodup) :
    (lookupInfo E.infos cid = none → cleanup G E cid = (E, .ok ())) ∧
    (∀ info, lookupInfo E.infos cid = some info →
      ((cleanup G E cid).2 = .ok () →
        lookupInfo (cleanup G E cid).1.infos cid = none ∧
        info.cgroup ∉ (cleanup G E cid).1.fs.dirs) ∧
      (∀ e, (cleanup G E cid).2 = .error e →
        lookupInfo (cleanup G E cid).1.infos cid = some info)) := by
  constructor
  · intro h
    simp [cleanup, h]
  · intro info h
    have hnone : lookupInfo (eraseAssoc E.infos cid) cid = none :=
      lookupInfo_eraseAssoc_self E.infos cid hnd
    simp only [cleanup, h]
    split_ifs with h1 h2 h3
    · -- controller cleanup failures: error surfaced, Info retained.
      exact ⟨fun hk => hk.elim, fun e _ => by simpa using h⟩
    · -- destroy fails: error surfaced and the Info retained.
      exact ⟨fun hk => hk.elim, fun e _ => by simpa using h⟩
    · -- destroy succeeds: Info erased, cgroup subtree removed.
      refine ⟨fun _ => ⟨by simpa using hnone, ?_⟩, fun e he => by simp at he⟩
      simp [List.mem_filter, pathLeB_self]
    · -- cgroup already absent: Info erased without destroying.
      refine ⟨fun _ => ⟨by simpa using hnone, ?_⟩, fun e he => by simp at he⟩
      simpa using h2

/-- Witness for C5 at the example state: cleanup of an unknown id is a
silent no-op, and a successful cleanup of `c1.p1` erases its `Info` and
leaves no trace of its non-leaf cgroup on disk. -/
theorem cleanup_info_erasure_witness :
    cleanup exG exE2 (ContainerID.base "zz") = (exE2, .ok ()) ∧
    (lookupInfo (cleanup exG exE2 exC1P1).1.infos exC1P1 = none ∧
      exInfoC1.cgroup ∉ (cleanup exG exE2 exC1P1).1.fs.dirs) :=
  ⟨(cleanup_info_erasure exG exE2 (ContainerID.base "zz") (by decide)).1
      (by rfl),
   ((cleanup_info_erasure exG exE2 exC1P1 (by decide)).2 exInfoC1 (by rfl)).1
      (by rfl)⟩

theorem chain_ne_nil (c : ContainerID) : c.chain ≠ [] := by
  cases c <;> simp [ContainerID.chain]

theorem prepare2_state (E : EngineState) (cid : ContainerID)
    (cfg : ContainerConfig) : (prepare2 E cid cfg).1 = E := by
  simp only [prepare2]
  split_ifs
  · rfl
  · rcases cgroupInfo E.infos cid with _ | i <;> rfl

theorem mem_dirs_mkdirAll_of_mem (E : EngineState) (p d : Path)
    (h : d ∈ E.fs.dirs) : d ∈ (mkdirAll E p).fs.dirs :=
  (mem_mkdirAll E p d).2 (Or.inl h)

theorem self_mem_mkdirAll (E : EngineState) (p : Path) (h : p ≠ []) :
    p ∈ (mkdirAll E p).fs.dirs :=
  (mem_mkdirAll E p p).2 (Or.inr (self_mem_initsNE p h))

/-- Reduction of `prepare` on a shared-cgroup nested container: under the
source's guards, the call creates the non-leaf and leaf directories,
inserts an `Info` with `isolate = false` and empty controller set, and
hands over to `__prepare`. -/
theorem prepare_shared_red (G : Engine) (E : EngineState)
    (cid : ContainerID) (cfg : ContainerConfig)
    (hshare : shareOf cid cfg.shareCgroupsOpt = true)
    (hnoinfo : lookupInfo E.infos cid = none)
    (hroot : G.root ∈ E.fs.dirs)
    (hnl : nonLeafOf G cid ∉ E.fs.dirs)
    (hlf : leafOf G cid ∉ E.fs.dirs) :
    prepare G E cid cfg =
      prepare2 (putInfo (mkdirAll (mkdirAll E (nonLeafOf G cid)) (leafOf G cid))
        cid ⟨cid, nonLeafOf G cid, leafOf G cid, false, [], none⟩) cid cfg := by
  have hlen : (leafOf G cid).length = (nonLeafOf G cid).length + 1 := by
    simp [leafOf]
  have hlf1 : leafOf G cid ∉ (mkdirAll E (nonLeafOf G cid)).fs.dirs := by
    rw [mem_mkdirAll]
    rintro (hc | hc)
    · exact hlf hc
    · have := length_le_of_mem_initsNE hc
      omega
  simp [prepare, hnoinfo, hroot, hnl, hlf1, hshare]

/-- Counterexample for C2: preparing the nested container `c1.p1` with
`share_cgroups = true` succeeds AND creates that container's own non-leaf
and leaf cgroup directories on disk, so it is not the case that only the
parent's cgroups exist afterwards. -/
theorem shared_prepare_creates_cgroups_cex :
    (prepare exG exE1 exC1P1 exCfgShared).2 = .ok none ∧
    ["mesos", "p1", "c1"] ∈ (prepare exG exE1 exC1P1 exCfgShared).1.fs.dirs ∧
    ["mesos", "p1", "c1", "leaf"] ∈
      (prepare exG exE1 exC1P1 exCfgShared).1.fs.dirs :=
  ⟨rfl, by decide, by decide⟩

/-- C2 amended: `prepare` of a nested container with `share_cgroups = true`
does create the container's own non-leaf and leaf cgroup directories (and an
`Info` with `isolate = false` and no controllers), but it skips controller
enabling (no `subtree_control` write at all) and controller `prepare`
(no controller invocation is logged), going straight to launch-info
generation (without a rootfs the result is immediately `ok none`). -/
theorem shared_prepare_amended (G : Engine) (E : EngineState)
    (cid : ContainerID) (cfg : ContainerConfig)
    (hshare : shareOf cid cfg.shareCgroupsOpt = true)
    (hnoinfo : lookupInfo E.infos cid = none)
    (hroot : G.root ∈ E.fs.dirs)
    (hnl : nonLeafOf G cid ∉ E.fs.dirs)
    (hlf : leafOf G cid ∉ E.fs.dirs) :
    (prepare G E cid cfg).1.fs.subtreeWrites = E.fs.subtreeWrites ∧
    (prepare G E cid cfg).1.events = E.events ∧
    nonLeafOf G cid ∈ (prepare G E cid cfg).1.fs.dirs ∧
    leafOf G cid ∈ (prepare G E cid cfg).1.fs.dirs ∧
    lookupInfo (prepare G E cid cfg).1.infos cid =
      some ⟨cid, nonLeafOf G cid, leafOf G cid, false, [], none⟩ ∧
    (cfg.hasRootfs = false → (prepare G E cid cfg).2 = .ok none) := by
  have hnl_ne : nonLeafOf G cid ≠ [] := by
    simp [nonLeafOf, chain_ne_nil]
  have hleaf_ne : leafOf G cid ≠ [] := by
    simp [leafOf]
  rw [prepare_shared_red G E cid cfg hshare hnoinfo hroot hnl hlf]
  refine ⟨by simp [prepare2_state], by simp [prepare2_state], ?d1, ?d2, ?l, ?r⟩
  · simp only [prepare2_state, putInfo_fs]
    exact mem_dirs_mkdirAll_of_mem _ _ _ (self_mem_mkdirAll _ _ hnl_ne)
  · simp only [prepare2_state, putInfo_fs]
    exact self_mem_mkdirAll _ _ hleaf_ne
  · simp [prepare2_state, lookupInfo_setAssoc_self]
  · intro hfs
    simp [prepare2, hfs]

/-- Witness for the amended C2 at the example state: the shared prepare of
`c1.p1` after the unshared prepare of `p1`. -/
theorem shared_prepare_amended_witness :
    (prepare exG exE1 exC1P1 exCfgShared).1.fs.subtreeWrites =
      exE1.fs.subtreeWrites ∧
    (prepare exG exE1 exC1P1 exCfgShared).1.events = exE1.events ∧
    nonLeafOf exG exC1P1 ∈ (prepare exG exE1 exC1P1 exCfgShared).1.fs.dirs ∧
    leafOf exG exC1P1 ∈ (prepare exG exE1 exC1P1 exCfgShared).1.fs.dirs ∧
    lookupInfo (prepare exG exE1 exC1P1 exCfgShared).1.infos exC1P1 =
      some ⟨exC1P1, nonLeafOf exG exC1P1, leafOf exG exC1P1, false, [], none⟩ ∧
    (exCfgShared.hasRootfs = false →
      (prepare exG exE1 exC1P1 exCfgShared).2 = .ok none) :=
  shared_prepare_amended exG exE1 exC1P1 exCfgShared (by decide) (by rfl)
    (by decide) (by decide) (by decide)

/-- Counterexample for C3: after the example prepares, the shared nested
container `c1.p1` DOES have an `Info` entry of its own in the engine's
table, and `cgroupInfo` of `c1.p1` differs from `cgroupInfo` of its parent
`p1`. -/
theorem shared_info_own_entry_cex :
    (lookupInfo exE2.infos exC1P1).isSome = true ∧
    cgroupInfo exE2.infos exC1P1 ≠ cgroupInfo exE2.infos exP1 :=
  ⟨by decide, by decide⟩

/-- C3 amended: a nested container prepared with `share_cgroups = true`
gets its own `Info` entry, with `isolate = false` and its own cgroup paths,
so `cgroupInfo` on it returns that entry rather than the parent's; the
parent-chain walk of `cgroupInfo` applies only to ids that have no `Info`
entry of their own. -/
theorem shared_info_amended (G : Engine) (E : EngineState)
    (cid : ContainerID) (cfg : ContainerConfig)
    (hshare : shareOf cid cfg.shareCgroupsOpt = true)
    (hnoinfo : lookupInfo E.infos cid = none)
    (hroot : G.root ∈ E.fs.dirs)
    (hnl : nonLeafOf G cid ∉ E.fs.dirs)
    (hlf : leafOf G cid ∉ E.fs.dirs) :
    lookupInfo (prepare G E cid cfg).1.infos cid =
      some ⟨cid, nonLeafOf G cid, leafOf G cid, false, [], none⟩ ∧
    (∀ (infos : List (ContainerID × Info)) (v : String) (p : ContainerID),
      lookupInfo infos (.child v p) = none →
      cgroupInfo infos (.child v p) = cgroupInfo infos p) := by
  refine ⟨?own, ?walk⟩
  · rw [prepare_shared_red G E cid cfg hshare hnoinfo hroot hnl hlf]
    simp [prepare2_state, lookupInfo_setAssoc_self]
  · intro infos v p h
    simp [cgroupInfo, h]

/-- Witness for the amended C3 at the example state. -/
theorem shared_info_amended_witness :
    lookupInfo (prepare exG exE1 exC1P1 exCfgShared).1.infos exC1P1 =
      some ⟨exC1P1, nonLeafOf exG exC1P1, leafOf exG exC1P1, false, [], none⟩ ∧
    (∀ (infos : List (ContainerID × Info)) (v : String) (p : ContainerID),
      lookupInfo infos (.child v p) = none →
      cgroupInfo infos (.child v p) = cgroupInfo infos p) :=
  shared_info_amended exG exE1 exC1P1 exCfgShared (by decide) (by rfl)
    (by decide) (by decide) (by decide)

def exGhost : ContainerID := .base "ghost"

/-- A recovery fixture: the filesystem holds the agent root, the agent's
own cgroup and a leftover `ghost` container cgroup, with no `Info`s. -/
def exEg : EngineState :=
  ⟨⟨[["mesos"], ["mesos", "agent"], ["mesos", "ghost"], ["mesos", "ghost", "leaf"]],
    [(["mesos"], "cpu"), (["mesos"], "mem")]⟩, [], []⟩

/-- Counterexample for C4: run `recover` with NO checkpointed states and
with `ghost` in the agent-supplied orphans set.  The `ghost` cgroup is
found under the root and decodes to a `ContainerID` that corresponds to no
checkpointed container, yet recovery succeeds with NO cleanup scheduled at
all — a known orphan is recovered but deliberately left to the
containerizer's normal cleanup path. -/
theorem known_orphan_not_scheduled_cex :
    (recover exG exEg [] [exGhost]).2 = .ok () ∧
    containerIdOf exG.root ["mesos", "ghost"] = some exGhost ∧
    ["mesos", "ghost"] ∈ exEg.fs.dirs ∧
    schedList (recover exG exEg [] [exGhost]).1.events = [] :=
  ⟨rfl, rfl, by decide, rfl⟩

theorem mem_insertId (l : List ContainerID) (c x : ContainerID) :
    x ∈ insertId l c ↔ x ∈ l ∨ x = c := by
  by_cases h : c ∈ l
  · simp only [insertId, if_pos h]
    constructor
    · exact Or.inl
    · rintro (hd | rfl)
      · exact hd
      · exact h
  · simp [insertId, if_neg h]

theorem schedList_append (l1 l2 : List Event) :
    schedList (l1 ++ l2) = schedList l1 ++ schedList l2 := by
  simp [schedList]

theorem schedList_map_recover (rs : List String) (cid : ContainerID) :
    schedList (rs.map (fun c => Event.ctrlRecover c cid)) = [] := by
  induction rs with
  | nil => rfl
  | cons a l ih => simp [schedList] at ih ⊢

theorem schedList_map_cleanup (rs : List String) (cid : ContainerID) :
    schedList (rs.map (fun c => Event.ctrlCleanup c cid)) = [] := by
  induction rs with
  | nil => rfl
  | cons a l ih => simp [schedList] at ih ⊢

theorem schedList_recover3Tail (G : Engine) (E2 : EngineState)
    (cid : ContainerID) (iso : Bool) (nonLeaf leaf : Path) :
    schedList (recover3Tail G E2 cid iso nonLeaf leaf).1.events =
      schedList E2.events := by
  simp only [recover3Tail]
  split_ifs <;>
    simp [schedList_append, schedList_map_recover]

theorem schedList_recover3 (G : Engine) (E : EngineState) (c : ContainerID)
    (iso : Bool) :
    schedList (recover3 G E c iso).1.events = schedList E.events := by
  simp only [recover3]
  split_ifs <;>
    simp [schedList_recover3Tail]

theorem schedList_cleanup (G : Engine) (E : EngineState) (c : ContainerID) :
    schedList (cleanup G E c).1.events = schedList E.events := by
  rcases h : lookupInfo E.infos c with _ | info
  · simp [cleanup, h]
  · simp only [cleanup, h]
    split_ifs <;>
      simp [schedList_append, schedList_map_cleanup]

theorem schedList_recoverOrphans (G : Engine) (E : EngineState)
    (l : List ContainerID) :
    schedList (recoverOrphans G E l).1.events = schedList E.events := by
  induction l generalizing E with
  | nil => rfl
  | cons c cs ih =>
    simp only [recoverOrphans]
    rw [ih, schedList_recover3]

theorem schedList_scheduleCleanups (G : Engine) (E : EngineState)
    (l : List ContainerID) :
    schedList (scheduleCleanups G E l).events = schedList E.events ++ l := by
  induction l generalizing E with
  | nil => simp [scheduleCleanups]
  | cons c cs ih =>
    simp only [scheduleCleanups]
    rw [ih, schedList_cleanup]
    simp [schedList_append, schedList]

theorem mem_classifyStep (G : Engine) (E : EngineState)
    (orphans : List ContainerID) (acc : List ContainerID × List ContainerID)
    (d : Path) (c : ContainerID) :
    c ∈ (classifyStep G E orphans acc d).2 ↔
      c ∈ acc.2 ∨ ((d ≠ agentPath G ∧ containerIdOf G.root d = some c) ∧
        (lookupInfo E.infos c = none ∧ c ∉ orphans)) := by
  unfold classifyStep
  by_cases h1 : d = agentPath G
  · simp [h1]
  · rw [if_neg h1]
    rcases h2 : containerIdOf G.root d with _ | c2
    · simp [h2]
    · simp only [h2]
      by_cases h3 : (lookupInfo E.infos c2).isSome
      · rw [if_pos h3]
        constructor
        · exact Or.inl
        · rintro (h | ⟨⟨_, hsome⟩, ⟨hnone, _⟩⟩)
          · exact h
          · rw [Option.some_inj] at hsome
            rw [hsome, hnone] at h3
            simp at h3
      · have hnone2 : lookupInfo E.infos c2 = none := by
          rcases hl : lookupInfo E.infos c2 with _ | i
          · rfl
          · rw [hl] at h3
            simp at h3
        rw [if_neg h3]
        by_cases h4 : c2 ∈ orphans
        · rw [if_pos h4]
          constructor
          · exact Or.inl
          · rintro (h | ⟨⟨_, hsome⟩, ⟨_, hno⟩⟩)
            · exact h
            · rw [Option.some_inj] at hsome
              exact absurd (hsome ▸ h4) hno
        · rw [if_neg h4]
          simp only [mem_insertId]
          constructor
          · rintro (h | rfl)
            · exact Or.inl h
            · exact Or.inr ⟨⟨h1, rfl⟩, hnone2, h4⟩
          · rintro (h | ⟨⟨_, hsome⟩, _⟩)
            · exact Or.inl h
            · rw [Option.some_inj] at hsome
              exact Or.inr hsome.symm

theorem mem_classify_foldl (G : Engine) (E : EngineState)
    (orphans : List ContainerID) (ds : List Path)
    (acc : List ContainerID × List ContainerID) (c : ContainerID) :
    c ∈ (ds.foldl (classifyStep G E orphans) acc).2 ↔
      c ∈ acc.2 ∨ ((∃ d, d ∈ ds ∧ d ≠ agentPath G ∧
          containerIdOf G.root d = some c) ∧
        (lookupInfo E.infos c = none ∧ c ∉ orphans)) := by
  induction ds generalizing acc with
  | nil => simp
  | cons d rest ih =>
    rw [List.foldl_cons, ih, mem_classifyStep]
    simp only [List.mem_cons]
    constructor
    · rintro ((h | ⟨hA, hQ⟩) | ⟨⟨d2, hd2, hA2⟩, hQ⟩)
      · exact Or.inl h
      · exact Or.inr ⟨⟨d, Or.inl rfl, hA.1, hA.2⟩, hQ⟩
      · exact Or.inr ⟨⟨d2, Or.inr hd2, hA2⟩, hQ⟩
    · rintro (h | ⟨⟨d2, (rfl | hd2), hA2⟩, hQ⟩)
      · exact Or.inl (Or.inl h)
      · exact Or.inl (Or.inr ⟨⟨hA2.1, hA2.2⟩, hQ⟩)
      · exact Or.inr ⟨⟨d2, hd2, hA2⟩, hQ⟩

theorem mem_sweepUnknown (G : Engine) (E : EngineState)
    (orphans : List ContainerID) (c : ContainerID) :
    c ∈ (sweepClassify G E orphans).2 ↔
      (∃ d, d ∈ E.fs.dirs ∧ pathUnder G.root d = true ∧ d ≠ agentPath G ∧
        containerIdOf G.root d = some c) ∧
      (lookupInfo E.infos c = none ∧ c ∉ orphans) := by
  rw [sweepClassify, mem_classify_foldl]
  simp only [List.mem_filter, List.not_mem_nil, false_or]
  constructor
  · rintro ⟨⟨d, ⟨hd, hu⟩, hne, hdec⟩, hQ⟩
    exact ⟨⟨d, hd, hu, hne, hdec⟩, hQ⟩
  · rintro ⟨⟨d, hd, hu, hne, hdec⟩, hQ⟩
    exact ⟨⟨d, ⟨hd, hu⟩, hne, hdec⟩, hQ⟩

/-- C4 amended: during a successful recovery sweep, the containers whose
cleanup gets scheduled are exactly the unknown orphans — the cgroups under
the agent root (the agent's own cgroup and paths that do not decode to a
`ContainerID` excluded) whose id has no `Info` (i.e. was not recovered from
the checkpointed states) AND is not in the agent-supplied orphans set.
Known orphans — ids in the orphans input — are recovered but never
scheduled for cleanup here. -/
theorem orphan_sweep_amended (G : Engine) (E : EngineState)
    (orphans : List ContainerID)
    (hok : (recoverSweep G E orphans).2 = .ok ()) :
    schedList (recoverSweep G E orphans).1.events =
      schedList E.events ++ (sweepClassify G E orphans).2 ∧
    ∀ c, c ∈ (sweepClassify G E orphans).2 ↔
      (∃ d, d ∈ E.fs.dirs ∧ pathUnder G.root d = true ∧ d ≠ agentPath G ∧
        containerIdOf G.root d = some c) ∧
      (lookupInfo E.infos c = none ∧ c ∉ orphans) := by
  refine ⟨?sched, fun c => mem_sweepUnknown G E orphans c⟩
  by_cases hemp : (recoverOrphans G E
      ((sweepClassify G E orphans).1 ++ (sweepClassify G E orphans).2)).2.isEmpty
  · simp only [recoverSweep, hemp, Bool.not_true, Bool.false_eq_true, if_false]
    rw [schedList_scheduleCleanups, schedList_recoverOrphans]
  · simp [recoverSweep, hemp] at hok

/-- Witness for the amended C4 at the recovery fixture, with an empty
orphans input, under which `ghost` is an unknown orphan. -/
theorem orphan_sweep_amended_witness :
    schedList (recoverSweep exG exEg []).1.events =
      schedList exEg.events ++ (sweepClassify exG exEg []).2 ∧
    ∀ c, c ∈ (sweepClassify exG exEg []).2 ↔
      (∃ d, d ∈ exEg.fs.dirs ∧ pathUnder exG.root d = true ∧
        d ≠ agentPath exG ∧ containerIdOf exG.root d = some c) ∧
      (lookupInfo exEg.infos c = none ∧ c ∉ ([] : List ContainerID)) :=
  orphan_sweep_amended exG exEg [] (by rfl)

theorem recover3Tail_ok (G : Engine) (E2 : EngineState) (cid : ContainerID)
    (iso : Bool) (nonLeaf leaf : Path)
    (hnoinfo : lookupInfo E2.infos cid = none)
    (hw : ∀ c, (c, cid) ∉ G.world.ctrlRecoverFails) :
    recover3Tail G E2 cid iso nonLeaf leaf =
      (putInfo (withEvents E2 ((G.ctrls.filter (fun c =>
          decide ((nonLeaf, c) ∈ E2.fs.subtreeWrites))).map
          (fun c => Event.ctrlRecover c cid))) cid
        ⟨cid, nonLeaf, leaf, iso,
          G.ctrls.filter (fun c => decide ((nonLeaf, c) ∈ E2.fs.subtreeWrites)),
          none⟩, .ok ()) := by
  have herrs : ∀ rs : List String,
      rs.filter (fun c => decide ((c, cid) ∈ G.world.ctrlRecoverFails)) = [] := by
    intro rs
    rw [List.filter_eq_nil_iff]
    intro a _
    simpa using hw a
  simp [recover3Tail, hnoinfo, herrs]

/-- C8: the per-container recovery step succeeds even when the non-leaf or
leaf directory is missing (no hypothesis on their presence), recreating
them so that both exist afterwards; it invokes `controller.recover` for
exactly the configured controllers whose name appears in the non-leaf
cgroup's enabled-controllers set (the event log grows by precisely those
invocations); and the inserted `Info` has its `controllers` set equal to
exactly the successfully recovered controllers. -/
theorem recover_container_repairs (G : Engine) (E : EngineState)
    (cid : ContainerID) (iso : Bool)
    (hnoinfo : lookupInfo E.infos cid = none)
    (hw : ∀ c, (c, cid) ∉ G.world.ctrlRecoverFails) :
    (recover3 G E cid iso).2 = .ok () ∧
    nonLeafOf G cid ∈ (recover3 G E cid iso).1.fs.dirs ∧
    leafOf G cid ∈ (recover3 G E cid iso).1.fs.dirs ∧
    (recover3 G E cid iso).1.events = E.events ++
      (G.ctrls.filter (fun c =>
        decide ((nonLeafOf G cid, c) ∈ E.fs.subtreeWrites))).map
        (fun c => Event.ctrlRecover c cid) ∧
    lookupInfo (recover3 G E cid iso).1.infos cid =
      some ⟨cid, nonLeafOf G cid, leafOf G cid, iso,
        G.ctrls.filter (fun c =>
          decide ((nonLeafOf G cid, c) ∈ E.fs.subtreeWrites)), none⟩ := by
  simp only [recover3]
  split_ifs with h1 h2 h2
  · rw [recover3Tail_ok G E cid iso _ _ hnoinfo hw]
    exact ⟨rfl, by simpa using h1, by simpa using h2, by simp,
      by simp [lookupInfo_setAssoc_self]⟩
  · rw [recover3Tail_ok G (mkdir E (leafOf G cid)) cid iso _ _
      (by simpa using hnoinfo) hw]
    refine ⟨rfl, ?_, ?_, by simp, by simp [lookupInfo_setAssoc_self]⟩
    · simp [mem_insertDir, h1]
    · simp [mem_insertDir]
  · rw [recover3Tail_ok G (mkdir E (nonLeafOf G cid)) cid iso _ _
      (by simpa using hnoinfo) hw]
    refine ⟨rfl, ?_, ?_, by simp, by simp [lookupInfo_setAssoc_self]⟩
    · simp [mem_insertDir]
    · simpa [mem_insertDir] using h2
  · rw [recover3Tail_ok G (mkdir (mkdir E (nonLeafOf G cid)) (leafOf G cid))
      cid iso _ _ (by simpa using hnoinfo) hw]
    refine ⟨rfl, ?_, ?_, by simp, by simp [lookupInfo_setAssoc_self]⟩
    · simp [mem_insertDir]
    · simp [mem_insertDir]

def exR1 : ContainerID := .base "r1"

/-- A damaged-recovery fixture: only the agent root exists on disk, yet the
`subtree_control` bookkeeping still lists `cpu` as enabled for the
container `r1`'s (missing) non-leaf cgroup. -/

def exEr : EngineState := ⟨⟨[["mesos"]], [(["mesos", "r1"], "cpu")]⟩, [], []⟩

/-- Witness for C8 at a fixture where both container directories are
missing and only `cpu` is enabled in the non-leaf's `subtree_control`. -/
theorem recover_container_repairs_witness :
    (recover3 exG exEr exR1 true).2 = .ok () ∧
    nonLeafOf exG exR1 ∈ (recover3 exG exEr exR1 true).1.fs.dirs ∧
    leafOf exG exR1 ∈ (recover3 exG exEr exR1 true).1.fs.dirs ∧
    (recover3 exG exEr exR1 true).1.events = exEr.events ++
      (exG.ctrls.filter (fun c =>
        decide ((nonLeafOf exG exR1, c) ∈ exEr.fs.subtreeWrites))).map
        (fun c => Event.ctrlRecover c exR1) ∧
    lookupInfo (recover3 exG exEr exR1 true).1.infos exR1 =
      some ⟨exR1, nonLeafOf exG exR1, leafOf exG exR1, true,
        exG.ctrls.filter (fun c =>
          decide ((nonLeafOf exG exR1, c) ∈ exEr.fs.subtreeWrites)), none⟩ :=
  recover_container_repairs exG exEr exR1 true (by rfl)
    (fun c => List.not_mem_nil _)

theorem mem_insName (l : List String) (c x : String) :
    x ∈ insName l c ↔ x ∈ l ∨ x = c := by
  by_cases h : c ∈ l
  · simp only [insName, if_pos h]
    constructor
    · exact Or.inl
    · rintro (hd | rfl)
      · exact hd
      · exact h
  · simp [insName, if_neg h]

theorem mem_foldl_insName (cs : List String) (l0 : List String) (x : String) :
    x ∈ cs.foldl insName l0 ↔ x ∈ l0 ∨ x ∈ cs := by
  induction cs generalizing l0 with
  | nil => simp
  | cons hd tl ih =>
    simp only [List.foldl_cons, ih, mem_insName, List.mem_cons]
    tauto

theorem hopsFrom_cons (cur : Path) (t : String) (ts : List String) :
    hopsFrom cur (t :: ts) = (cur ++ [t]) :: hopsFrom (cur ++ [t]) ts := rfl

theorem append_mem_hopsFrom (ts : List String) (h : ts ≠ []) :
    ∀ cur : Path, cur ++ ts ∈ hopsFrom cur ts := by
  induction ts with
  | nil => exact absurd rfl h
  | cons t rest ih =>
    intro cur
    by_cases hr : rest = []
    · simp [hr, hopsFrom]
    · rw [hopsFrom_cons]
      have := ih hr (cur ++ [t])
      simpa [List.append_assoc] using Or.inr this

theorem enableAlong_ok (G : Engine) (c : String)
    (hw : ∀ p, (p, c) ∉ G.world.enableFails) :
    ∀ (ts : List String) (E : EngineState) (cur : Path),
      (enableAlong G c E cur ts).2 = .ok () ∧
      (enableAlong G c E cur ts).1.infos = E.infos ∧
      (enableAlong G c E cur ts).1.events = E.events ∧
      (enableAlong G c E cur ts).1.fs.dirs = E.fs.dirs ∧
      ∀ x, x ∈ (enableAlong G c E cur ts).1.fs.subtreeWrites ↔
        x ∈ E.fs.subtreeWrites ∨ (x.1 ∈ hopsFrom cur ts ∧ x.2 = c) := by
  intro ts
  induction ts with
  | nil =>
    intro E cur
    simp [enableAlong, hopsFrom]
  | cons t rest ih =>
    intro E cur
    have hnf : (cur ++ [t], c) ∉ G.world.enableFails := hw _
    simp only [enableAlong, hnf, if_neg, if_false, ite_false]
    obtain ⟨h1, h2, h3, h4, h5⟩ := ih (addWrite E (cur ++ [t]) c) (cur ++ [t])
    refine ⟨h1, by simpa using h2, by simpa using h3, by simpa using h4, ?_⟩
    intro x
    rw [h5 x, mem_addWrite, hopsFrom_cons]
    simp only [List.mem_cons, Prod.ext_iff]
    tauto

theorem prepLoop_ok (G : Engine) (cid : ContainerID) (tokens : List String)
    (hw : ∀ p c, (p, c) ∉ G.world.enableFails) :
    ∀ (cs : List String) (E : EngineState),
      (prepLoop G cid tokens E cs).2 = .ok () ∧
      (prepLoop G cid tokens E cs).1.fs.dirs = E.fs.dirs ∧
      (prepLoop G cid tokens E cs).1.events =
        E.events ++ cs.map (fun c => Event.ctrlPrepare c cid) ∧
      (∀ x, x ∈ (prepLoop G cid tokens E cs).1.fs.subtreeWrites ↔
        x ∈ E.fs.subtreeWrites ∨
          (x.1 ∈ hopsFrom G.root tokens ∧ x.2 ∈ cs ∧ x.2 ∉ skipEnable)) ∧
      lookupInfo (prepLoop G cid tokens E cs).1.infos cid =
        (lookupInfo E.infos cid).map (fun i =>
          { i with controllers := cs.foldl insName i.controllers }) := by
  intro cs
  induction cs with
  | nil =>
    intro E
    refine ⟨rfl, rfl, by simp [prepLoop], ?_, ?_⟩
    · intro x
      simp [prepLoop]
    · simp only [prepLoop, List.foldl_nil]
      rcases lookupInfo E.infos cid with _ | i <;> simp
  | cons c rest ih =>
    intro E
    by_cases hskip : c ∈ skipEnable
    · -- the enable walk is skipped for this controller
      simp only [prepLoop, if_pos hskip]
      obtain ⟨h1, h2, h3, h4, h5⟩ :=
        ih (withEvents (addCtrlInfo E cid c) [Event.ctrlPrepare c cid])
      refine ⟨h1, by simpa using h2, ?_, ?_, ?_⟩
      · rw [h3]
        simp
      · intro x
        rw [h4 x]
        simp only [withEvents_fs, addCtrlInfo_fs, List.mem_cons]
        constructor
        · rintro (h | ⟨ha, hb, hc⟩)
          · exact Or.inl h
          · exact Or.inr ⟨ha, Or.inr hb, hc⟩
        · rintro (h | ⟨ha, hb2, hc⟩)
          · exact Or.inl h
          · rcases hb2 with hbe | hb
            · exact absurd (by rw [hbe]; exact hskip) hc
            · exact Or.inr ⟨ha, hb, hc⟩
      · rw [h5]
        simp only [withEvents_infos, addCtrlInfo]
        rw [lookupInfo_modAssoc_self]
        rcases lookupInfo E.infos cid with _ | i <;> simp
    · -- the controller is enabled along the hops, then prepared
      obtain ⟨e1, e2, e3, e4, e5⟩ := enableAlong_ok G c (fun p => hw p c)
        tokens E G.root
      simp only [prepLoop, if_neg hskip, e1]
      obtain ⟨h1, h2, h3, h4, h5⟩ :=
        ih (withEvents (addCtrlInfo (enableAlong G c E G.root tokens).1 cid c)
          [Event.ctrlPrepare c cid])
      refine ⟨h1, by simpa [e4] using h2, ?_, ?_, ?_⟩
      · rw [h3]
        simp [e3]
      · intro x
        rw [h4 x]
        simp only [withEvents_fs, addCtrlInfo_fs, e5 x, List.mem_cons]
        constructor
        · rintro ((h | ⟨ha, hxc⟩) | ⟨ha, hb, hc⟩)
          · exact Or.inl h
          · exact Or.inr ⟨ha, Or.inl hxc, by rw [hxc]; exact hskip⟩
          · exact Or.inr ⟨ha, Or.inr hb, hc⟩
        · rintro (h | ⟨ha, hb2, hc⟩)
          · exact Or.inl (Or.inl h)
          · rcases hb2 with hxc | hb
            · exact Or.inl (Or.inr ⟨ha, hxc⟩)
            · exact Or.inr ⟨ha, hb, hc⟩
      · rw [h5]
        simp only [withEvents_infos, addCtrlInfo]
        rw [lookupInfo_modAssoc_self, e2]
        rcases lookupInfo E.infos cid with _ | i <;> simp


/-- C7: after a successful unshared `prepare` (the hypotheses make every
external step succeed; `hboot` is the agent-bootstrap invariant, stated in
the source's own comment, that the agent root's `subtree_control` is
already set up for the configured controllers), every controller other
than `core`, `perf_event` and `devices` is present in the
`subtree_control` of every directory on the path from the agent root
through the container's non-leaf cgroup; `prepare` never writes the leaf's
`subtree_control` and never writes `core`, `perf_event` or `devices` into
any `subtree_control`, yet every configured controller — the three special
ones included — is registered in `Info.controllers` and has its
`controller.prepare` invoked. -/
theorem subtree_control_after_prepare (G : Engine) (E : EngineState)
    (cid : ContainerID) (cfg : ContainerConfig)
    (hshare : shareOf cid cfg.shareCgroupsOpt = false)
    (hnoinfo : lookupInfo E.infos cid = none)
    (hroot : G.root ∈ E.fs.dirs)
    (hnl : nonLeafOf G cid ∉ E.fs.dirs)
    (hlf : leafOf G cid ∉ E.fs.dirs)
    (hdbg : cfg.isDebug = false)
    (hwe : ∀ p c, (p, c) ∉ G.world.enableFails)
    (hwp : ∀ c, (c, cid) ∉ G.world.ctrlPrepareFails)
    (hwu : ∀ c, (c, cid) ∉ G.world.ctrlUpdateFails)
    (hchown : chownStep G cfg (leafOf G cid) = .ok ())
    (hboot : ∀ c, c ∈ G.ctrls → c ∉ skipEnable →
      (G.root, c) ∈ E.fs.subtreeWrites) :
    (∃ out, (prepare G E cid cfg).2 = .ok out) ∧
    (∀ c, c ∈ G.ctrls → c ∉ skipEnable →
      ∀ d, d = G.root ∨ d ∈ hopsFrom G.root cid.chain →
        (d, c) ∈ (prepare G E cid cfg).1.fs.subtreeWrites) ∧
    (∀ c, c ∈ G.ctrls → c ∉ skipEnable →
      (nonLeafOf G cid, c) ∈ (prepare G E cid cfg).1.fs.subtreeWrites) ∧
    (∀ c, (leafOf G cid, c) ∈ (prepare G E cid cfg).1.fs.subtreeWrites →
      (leafOf G cid, c) ∈ E.fs.subtreeWrites) ∧
    (∀ c, c ∈ skipEnable →
      ∀ d, (d, c) ∈ (prepare G E cid cfg).1.fs.subtreeWrites →
        (d, c) ∈ E.fs.subtreeWrites) ∧
    (∀ c, c ∈ G.ctrls →
      (∃ i, lookupInfo (prepare G E cid cfg).1.infos cid = some i ∧
        c ∈ i.controllers) ∧
      Event.ctrlPrepare c cid ∈ (prepare G E cid cfg).1.events) := by
  have hlen : (leafOf G cid).length = (nonLeafOf G cid).length + 1 := by
    simp [leafOf]
  have hlf1 : leafOf G cid ∉ (mkdirAll E (nonLeafOf G cid)).fs.dirs := by
    rw [mem_mkdirAll]
    rintro (hc | hc)
    · exact hlf hc
    · have := length_le_of_mem_initsNE hc
      omega
  obtain ⟨p1, p2, p3, p4, p5⟩ := prepLoop_ok G cid cid.chain hwe G.ctrls
    (putInfo (mkdirAll (mkdirAll E (nonLeafOf G cid)) (leafOf G cid)) cid
      ⟨cid, nonLeafOf G cid, leafOf G cid, true, [], none⟩)
  have hlookpl : lookupInfo (prepLoop G cid cid.chain
      (putInfo (mkdirAll (mkdirAll E (nonLeafOf G cid)) (leafOf G cid)) cid
        ⟨cid, nonLeafOf G cid, leafOf G cid, true, [], none⟩) G.ctrls).1.infos
      cid = some ⟨cid, nonLeafOf G cid, leafOf G cid, true,
        G.ctrls.foldl insName [], none⟩ := by
    rw [p5]
    simp [lookupInfo_setAssoc_self]
  have herrsP : G.ctrls.filter
      (fun c => decide ((c, cid) ∈ G.world.ctrlPrepareFails)) = [] := by
    rw [List.filter_eq_nil_iff]
    intro a _
    simpa using hwp a
  have hupd : update G (prepLoop G cid cid.chain
      (putInfo (mkdirAll (mkdirAll E (nonLeafOf G cid)) (leafOf G cid)) cid
        ⟨cid, nonLeafOf G cid, leafOf G cid, true, [], none⟩) G.ctrls).1 cid =
      (withEvents (prepLoop G cid cid.chain
        (putInfo (mkdirAll (mkdirAll E (nonLeafOf G cid)) (leafOf G cid)) cid
          ⟨cid, nonLeafOf G cid, leafOf G cid, true, [], none⟩) G.ctrls).1
        ((G.ctrls.filter (fun c =>
          decide (c ∈ G.ctrls.foldl insName ([] : List String)))).map
          (fun c => Event.ctrlUpdate c cid)), .ok ()) := by
    have herrsU : ∀ rs : List String, rs.filter
        (fun c => decide ((c, cid) ∈ G.world.ctrlUpdateFails)) = [] := by
      intro rs
      rw [List.filter_eq_nil_iff]
      intro a _
      simpa using hwu a
    simp [update, hlookpl, herrsU]
  have hred : prepare G E cid cfg =
      prepare2 (withEvents (prepLoop G cid cid.chain
        (putInfo (mkdirAll (mkdirAll E (nonLeafOf G cid)) (leafOf G cid)) cid
          ⟨cid, nonLeafOf G cid, leafOf G cid, true, [], none⟩) G.ctrls).1
        ((G.ctrls.filter (fun c =>
          decide (c ∈ G.ctrls.foldl insName ([] : List String)))).map
          (fun c => Event.ctrlUpdate c cid))) cid cfg := by
    simp only [prepare, hnoinfo, Option.isSome_none, Bool.false_eq_true,
      if_false, hroot, not_true_eq_false, hnl, not_false_eq_true, if_true,
      hshare, hdbg, hchown, p1, hupd]
    rw [if_neg (by simpa using hlf1)]
    simp only [hshare, Bool.false_eq_true, if_false, hdbg, Bool.not_false,
      p1, hchown, herrsP, List.isEmpty_nil, Bool.not_true, hupd]
  have hwritesR : ∀ x : Path × String,
      x ∈ (prepare G E cid cfg).1.fs.subtreeWrites ↔
      x ∈ E.fs.subtreeWrites ∨ (x.1 ∈ hopsFrom G.root cid.chain ∧
        x.2 ∈ G.ctrls ∧ x.2 ∉ skipEnable) := by
    intro x
    rw [hred, prepare2_state]
    simpa using p4 x
  have hlookR : lookupInfo (prepare G E cid cfg).1.infos cid =
      some ⟨cid, nonLeafOf G cid, leafOf G cid, true,
        G.ctrls.foldl insName [], none⟩ := by
    rw [hred, prepare2_state]
    simpa using hlookpl
  have hnlhop : nonLeafOf G cid ∈ hopsFrom G.root cid.chain :=
    append_mem_hopsFrom cid.chain (chain_ne_nil cid) G.root
  refine ⟨?ok, ?cov, ?nl, ?lf, ?sp, ?reg⟩
  · by_cases hr : cfg.hasRootfs
    · refine ⟨some ⟨true, true, leafOf G cid,
        cfg.rootfs ++ "/sys/fs/cgroup", cfg.hasTaskInfo⟩, ?_⟩
      rw [hred]
      simp [prepare2, hr, cgroupInfo_of_lookup _ cid _ hlookpl]
    · exact ⟨none, by rw [hred]; simp [prepare2, hr]⟩
  · intro c hc hcs d hd
    rcases hd with rfl | hd
    · exact (hwritesR (G.root, c)).2 (Or.inl (hboot c hc hcs))
    · exact (hwritesR (d, c)).2 (Or.inr ⟨hd, hc, hcs⟩)
  · intro c hc hcs
    exact (hwritesR (nonLeafOf G cid, c)).2 (Or.inr ⟨hnlhop, hc, hcs⟩)
  · intro c h
    rcases (hwritesR (leafOf G cid, c)).1 h with h | ⟨hhop, _, _⟩
    · exact h
    · exfalso
      have h1 : (leafOf G cid).length ≤ G.root.length + cid.chain.length := by
        simpa using length_le_of_mem_hopsFrom hhop
      have h2 : (nonLeafOf G cid).length =
          G.root.length + cid.chain.length := by
        simp [nonLeafOf]
      omega
  · intro c hcs d h
    rcases (hwritesR (d, c)).1 h with h | ⟨_, _, hns⟩
    · exact h
    · exact absurd hcs hns
  · intro c hc
    refine ⟨⟨⟨cid, nonLeafOf G cid, leafOf G cid, true,
      G.ctrls.foldl insName [], none⟩, hlookR, ?_⟩, ?_⟩
    · exact (mem_foldl_insName G.ctrls [] c).2 (Or.inr hc)
    · rw [hred, prepare2_state]
      simp only [withEvents_events, p3, putInfo_events, mkdirAll_events,
        List.mem_append, List.mem_map]
      exact Or.inl (Or.inr ⟨c, hc, rfl⟩)


/-- Witness for C7: the unshared prepare of the top-level container `p1`
on the bootstrap state. -/
theorem subtree_control_after_prepare_witness :
    (∃ out, (prepare exG exE0 exP1 exCfgTop).2 = .ok out) ∧
    (∀ c, c ∈ exG.ctrls → c ∉ skipEnable →
      ∀ d, d = exG.root ∨ d ∈ hopsFrom exG.root exP1.chain →
        (d, c) ∈ (prepare exG exE0 exP1 exCfgTop).1.fs.subtreeWrites) ∧
    (∀ c, c ∈ exG.ctrls → c ∉ skipEnable →
      (nonLeafOf exG exP1, c) ∈
        (prepare exG exE0 exP1 exCfgTop).1.fs.subtreeWrites) ∧
    (∀ c, (leafOf exG exP1, c) ∈
        (prepare exG exE0 exP1 exCfgTop).1.fs.subtreeWrites →
      (leafOf exG exP1, c) ∈ exE0.fs.subtreeWrites) ∧
    (∀ c, c ∈ skipEnable →
      ∀ d, (d, c) ∈ (prepare exG exE0 exP1 exCfgTop).1.fs.subtreeWrites →
        (d, c) ∈ exE0.fs.subtreeWrites) ∧
    (∀ c, c ∈ exG.ctrls →
      (∃ i, lookupInfo (prepare exG exE0 exP1 exCfgTop).1.infos exP1 = some i ∧
        c ∈ i.controllers) ∧
      Event.ctrlPrepare c exP1 ∈ (prepare exG exE0 exP1 exCfgTop).1.events) :=
  subtree_control_after_prepare exG exE0 exP1 exCfgTop (by rfl) (by rfl)
    (by decide) (by decide) (by decide) (by rfl)
    (fun p c => List.not_mem_nil _) (fun c => List.not_mem_nil _)
    (fun c => List.not_mem_nil _) (by rfl) (by decide)

end CG2
